import Mathlib

/-!
Verification development for the YDLiDAR T-mini serial driver
(`ydlidar_tmini/protocol.py`, `ydlidar_tmini/tmini_driver.py`,
`ydlidar_tmini/types.py`).

The byte stream is modelled as `List Nat` (each element a byte value,
meaningful when `< 256`).  Floating point angle/distance arithmetic is
modelled exactly over `ℚ`; every concrete value exercised by the claims
(multiples of 1/64 degree, quarter millimetres) is exact in both binary
floating point and `ℚ`, so the rational model agrees with the float code
on those inputs.  `time.time()` (the scan timestamp) is an effect and is
left out of the model; scans carry their points and frequency.
-/

namespace YDLidar

/-- Little-endian 16-bit word from two bytes, the value produced by
Python's `struct.unpack('<H', ...)` on bytes `lo`, `hi`
(equal to `lo + 256 * hi` when `lo < 256`). -/
def le16 (lo hi : Nat) : Nat := lo ||| (hi <<< 8)

/-- `YDLidarProtocol.HEADER_SIZE`. -/
def HEADER_SIZE : Nat := 10

/-- `YDLidarProtocol.MAX_POINTS_PER_PACKET`. -/
def MAX_POINTS_PER_PACKET : Nat := 80

/-- Protocol configuration, the `has_intensity` / `intensity_bit`
constructor arguments of `YDLidarProtocol`. -/
structure Config where
  has_intensity : Bool
  intensity_bit : Nat
  deriving DecidableEq

/-- `self.bytes_per_point = 3 if has_intensity else 2`. -/
def bytes_per_point (cfg : Config) : Nat := if cfg.has_intensity then 3 else 2

/-- A single measurement (`types.LaserPoint`): angle in degrees,
distance in metres, intensity. -/
structure LaserPoint where
  angle : ℚ
  distance : ℚ
  intensity : Nat
  deriving DecidableEq

/-- One scan (`types.LaserScan`): points and scan frequency in Hz.
The `timestamp` field of the Python dataclass is an effectful
`time.time()` reading and is not part of the functional model. -/
structure LaserScan where
  points : List LaserPoint
  scan_frequency : ℚ
  deriving DecidableEq

/-- `YDLidarProtocol._parse_header`: validate the 10 header bytes and
return `(PH, CT, LSN, FSA, LSA, CS)`, or `none` when the sync marker is
wrong or the sample count `LSN` is outside `[1, MAX_POINTS_PER_PACKET]`. -/
def parse_header (header_data : List Nat) : Option (Nat × Nat × Nat × Nat × Nat × Nat) :=
  if header_data.length ≠ HEADER_SIZE then none
  else if header_data.getD 0 0 ≠ 0xAA ∨ header_data.getD 1 0 ≠ 0x55 then none
  else
    let ph := le16 (header_data.getD 0 0) (header_data.getD 1 0)
    let ct := header_data.getD 2 0
    let lsn := header_data.getD 3 0
    let fsa := le16 (header_data.getD 4 0) (header_data.getD 5 0)
    let lsa := le16 (header_data.getD 6 0) (header_data.getD 7 0)
    let cs := le16 (header_data.getD 8 0) (header_data.getD 9 0)
    if lsn < 1 ∨ lsn > MAX_POINTS_PER_PACKET then none
    else some (ph, ct, lsn, fsa, lsa, cs)

/-- The intensity-mode checksum loop of `YDLidarProtocol._verify_checksum`
(`for i in range(data_start, data_start + data_size, 3)`): `k` iterations
starting at byte index `i`; each iteration whose guard
`i + 2 < len(packet_data)` holds XORs the intensity byte and then the
little-endian distance word into the accumulator. -/
def cs_loop_intensity (packet_data : List Nat) : Nat → Nat → Nat → Nat
  | i, k+1, cs =>
    let cs2 := if i + 2 < packet_data.length then
        (cs ^^^ packet_data.getD i 0) ^^^
          le16 (packet_data.getD (i+1) 0) (packet_data.getD (i+2) 0)
      else cs
    cs_loop_intensity packet_data (i+3) k cs2
  | _, 0, cs => cs

/-- The no-intensity checksum loop of `YDLidarProtocol._verify_checksum`
(step 2, guard `i + 1 < len(packet_data)`): each sample's raw 16-bit
little-endian word is XORed directly. -/
def cs_loop_plain (packet_data : List Nat) : Nat → Nat → Nat → Nat
  | i, k+1, cs =>
    let cs2 := if i + 1 < packet_data.length then
        cs ^^^ le16 (packet_data.getD i 0) (packet_data.getD (i+1) 0)
      else cs
    cs_loop_plain packet_data (i+2) k cs2
  | _, 0, cs => cs

/-- The checksum value computed by `YDLidarProtocol._verify_checksum`:
seed `0x55AA`, XOR `FSA`, run the per-sample loop over the data section,
then XOR the `(CT, LSN)` word and `LSA`. -/
def compute_checksum (cfg : Config) (packet_data : List Nat) : Nat :=
  let cs0 := 0x55AA
  let fsa := le16 (packet_data.getD 4 0) (packet_data.getD 5 0)
  let cs1 := cs0 ^^^ fsa
  let lsn := packet_data.getD 3 0
  let cs2 := if cfg.has_intensity then
      cs_loop_intensity packet_data HEADER_SIZE lsn cs1
    else
      cs_loop_plain packet_data HEADER_SIZE lsn cs1
  let ct_lsn := le16 (packet_data.getD 2 0) (packet_data.getD 3 0)
  let lsa := le16 (packet_data.getD 6 0) (packet_data.getD 7 0)
  (cs2 ^^^ ct_lsn) ^^^ lsa

/-- `YDLidarProtocol._verify_checksum`: the computed value must equal the
transmitted checksum. -/
def verify_checksum (cfg : Config) (packet_data : List Nat) (expected_cs : Nat) : Bool :=
  compute_checksum cfg packet_data == expected_cs

/-- Python's `a % b` for floats with `b > 0`: `a - b * floor(a / b)`. -/
def pymod (a b : ℚ) : ℚ := a - b * (⌊a / b⌋ : ℚ)

/-- The raw-angle decoding `(raw >> 1) / 64.0` of
`YDLidarProtocol._parse_points` (lines computing `angle_fsa`/`angle_lsa`). -/
def angle_deg (raw : Nat) : ℚ := ((raw >>> 1 : Nat) : ℚ) / 64

/-- The angle assigned to sample `i` of `lsn` by
`YDLidarProtocol._parse_points`: linear interpolation between
`angle_deg fsa` and `angle_deg lsa` (span bumped by 360 when negative),
normalised with `% 360.0` after interpolation. -/
def angle_at (fsa lsa lsn i : Nat) : ℚ :=
  let angle_fsa := angle_deg fsa
  let angle_lsa := angle_deg lsa
  let angle_diff0 := angle_lsa - angle_fsa
  let angle_diff := if angle_diff0 < 0 then angle_diff0 + 360 else angle_diff0
  let angle := if lsn > 1 then
      angle_fsa + ((i : ℚ) * angle_diff) / ((lsn - 1 : Nat) : ℚ)
    else angle_fsa
  pymod angle 360

/-- The point built for sample `i` by the body of the
`for i in range(lsn)` loop of `YDLidarProtocol._parse_points`:
distance and intensity from the sample's bytes, angle from `angle_at`. -/
def point_at (cfg : Config) (data : List Nat) (lsn fsa lsa i : Nat) : LaserPoint :=
  if cfg.has_intensity then
    let offset := i * 3
    let s0 := data.getD offset 0
    let s1 := data.getD (offset + 1) 0
    let s2 := data.getD (offset + 2) 0
    let raw_distance := ((s2 <<< 8) ||| s1) &&& 0xFFFC
    let distance_mm : ℚ := (raw_distance : ℚ) / 4
    let intensity := if cfg.intensity_bit = 10 then ((s1 &&& 0x03) <<< 8) ||| s0 else s0
    ⟨angle_at fsa lsa lsn i, distance_mm / 1000, intensity⟩
  else
    let offset := i * 2
    let s0 := data.getD offset 0
    let s1 := data.getD (offset + 1) 0
    let raw_distance := (s1 <<< 8) ||| s0
    let distance_mm : ℚ := (raw_distance : ℚ) / 4
    ⟨angle_at fsa lsa lsn i, distance_mm / 1000, 0⟩

/-- The sample loop of `YDLidarProtocol._parse_points`, with the `break`
when the sample's bytes run past the end of `data`: `k` remaining
iterations, current index `i`. -/
def parse_points_go (cfg : Config) (data : List Nat) (lsn fsa lsa : Nat) :
    Nat → Nat → List LaserPoint
  | i, k+1 =>
    if cfg.has_intensity then
      if i * 3 + 2 ≥ data.length then []
      else point_at cfg data lsn fsa lsa i ::
        parse_points_go cfg data lsn fsa lsa (i+1) k
    else
      if i * 2 + 1 ≥ data.length then []
      else point_at cfg data lsn fsa lsa i ::
        parse_points_go cfg data lsn fsa lsa (i+1) k
  | _, 0 => []

/-- `YDLidarProtocol._parse_points`. -/
def parse_points (cfg : Config) (data : List Nat) (lsn fsa lsa : Nat) : List LaserPoint :=
  parse_points_go cfg data lsn fsa lsa 0 lsn

/-- `YDLidarProtocol.parse_packet`: header validation, data-size check,
checksum verification, then point parsing; returns the per-packet scan
and the zero-position flag `bool(ct & 0x01)`. -/
def parse_packet (cfg : Config) (data : List Nat) : Option (LaserScan × Bool) :=
  if data.length < HEADER_SIZE then none
  else
    match parse_header (data.take HEADER_SIZE) with
    | none => none
    | some (_ph, ct, lsn, fsa, lsa, cs) =>
      let data_size := lsn * bytes_per_point cfg
      let expected_size := HEADER_SIZE + data_size
      if data.length < expected_size then none
      else
        let packet_data := (data.drop HEADER_SIZE).take data_size
        if ¬ (verify_checksum cfg (data.take expected_size) cs = true) then none
        else
          let points := parse_points cfg packet_data lsn fsa lsa
          let scan_frequency : ℚ := ((ct >>> 1 : Nat) : ℚ) * (1 / 10)
          let is_new_scan : Bool := (ct &&& 1) != 0
          some (⟨points, scan_frequency⟩, is_new_scan)

/-- `TMiniDriver.__init__`: `self._scan_queue = Queue(maxsize=10)`. -/
def scan_queue_maxsize : Nat := 10

/-- The queue insertion of `TMiniDriver._process_buffer`
(lines 221 to 229): `put_nowait`, and when the queue is full
(`queue.Queue(maxsize=10)` raises on `put_nowait` at 10 entries)
`get_nowait` the oldest entry and `put_nowait` again.  The producer is
never blocked: this is a total function on the queue contents. -/
def scan_queue_put (q : List LaserScan) (scan : LaserScan) : List LaserScan :=
  if q.length < scan_queue_maxsize then q ++ [scan]
  else q.drop 1 ++ [scan]

/-- The driver state mutated by `TMiniDriver._process_buffer` besides
the byte buffer (which Python passes as an argument):
`_current_scan_points`, `_scan_queue`, `_scan_count`; `emitted` records
every completed scan handed to the callback and to the queue, in order. -/
structure DriverState where
  current_scan_points : List LaserPoint
  scan_queue : List LaserScan
  scan_count : Nat
  emitted : List LaserScan
  deriving DecidableEq

/-- The scan-assembly step of `TMiniDriver._process_buffer` for one
decoded packet (lines 200 to 232): extend `_current_scan_points` with the
packet's points; then, when the packet is a zero-position packet and the
accumulator is non-empty, emit the accumulator as a completed scan (with
the triggering packet's frequency), push it on the queue, bump the scan
count and reset the accumulator. -/
def process_packet_result (st : DriverState) (scan : LaserScan) (is_new_scan : Bool) :
    DriverState :=
  let acc := st.current_scan_points ++ scan.points
  if is_new_scan = true ∧ acc.length > 0 then
    let complete_scan : LaserScan := ⟨acc, scan.scan_frequency⟩
    { current_scan_points := []
      scan_queue := scan_queue_put st.scan_queue complete_scan
      scan_count := st.scan_count + 1
      emitted := st.emitted ++ [complete_scan] }
  else
    { st with current_scan_points := acc }

/-- Feeding a sequence of decoded packets (per-packet scan plus
zero-position flag, as returned by `parse_packet`) through the
scan-assembly step, as successive `_process_buffer` iterations do. -/
def process_packets (st : DriverState) : List (LaserScan × Bool) → DriverState
  | [] => st
  | (scan, is_new) :: rest => process_packets (process_packet_result st scan is_new) rest

/-- `TMiniDriver._find_header`: scan for adjacent bytes `0xAA, 0x55`
starting at index `i`; `none` models the Python return value `-1`. -/
def find_header_go : List Nat → Nat → Option Nat
  | a :: b :: rest, i =>
    if a = 0xAA ∧ b = 0x55 then some i else find_header_go (b :: rest) (i+1)
  | _, _ => none

/-- `TMiniDriver._find_header` on a whole buffer. -/
def find_header (buffer : List Nat) : Option Nat := find_header_go buffer 0

/-- `TMiniDriver._process_buffer`: the framing loop.  While at least
`HEADER_SIZE` bytes are buffered: locate the sync marker (clearing the
whole buffer and stopping when absent), drop bytes before it, read the
raw sample count from byte 3, compute the exact packet size, wait if the
packet is not fully buffered, otherwise slice the packet off, parse it,
and run the scan-assembly step on a successful parse.  Returns the
remaining buffer and the updated state, as the Python method leaves them
in `buffer` and `self`. -/
def process_buffer (cfg : Config) (buffer : List Nat) (st : DriverState) :
    List Nat × DriverState :=
  if _h : buffer.length ≥ HEADER_SIZE then
    match find_header buffer with
    | none => ([], st)
    | some header_idx =>
      let buf1 := buffer.drop header_idx
      if buf1.length < HEADER_SIZE then (buf1, st)
      else
        let lsn := buf1.getD 3 0
        let packet_size := HEADER_SIZE + lsn * bytes_per_point cfg
        if buf1.length < packet_size then (buf1, st)
        else
          let packet_data := buf1.take packet_size
          let buf2 := buf1.drop packet_size
          let st2 :=
            match parse_packet cfg packet_data with
            | none => st
            | some (scan, is_new_scan) => process_packet_result st scan is_new_scan
          process_buffer cfg buf2 st2
  else (buffer, st)
  termination_by buffer.length
  decreasing_by
    simp only [HEADER_SIZE, List.length_drop] at *
    omega

/-! ### Queue backpressure (drop-oldest) -/

/-- Folding `scan_queue_put` keeps the most recent entries: starting from
a queue within capacity, the result is the suffix of `q ++ scans` that
fits the capacity of 10. -/
theorem scan_queue_put_foldl (scans : List LaserScan) :
    ∀ q : List LaserScan, q.length ≤ 10 →
      List.foldl scan_queue_put q scans =
        (q ++ scans).drop (q.length + scans.length - 10) := by
  induction scans with
  | nil =>
    intro q hq
    simp only [List.foldl_nil, List.append_nil, List.length_nil]
    rw [show q.length + 0 - 10 = 0 by omega, List.drop_zero]
  | cons s ss ih =>
    intro q hq
    rw [List.foldl_cons]
    by_cases hfull : q.length < 10
    · rw [show scan_queue_put q s = q ++ [s] by
        simp [scan_queue_put, scan_queue_maxsize, hfull]]
      rw [ih (q ++ [s]) (by rw [List.length_append, List.length_singleton]; omega)]
      rw [List.append_assoc, List.singleton_append]
      rw [show (q ++ [s]).length + ss.length - 10
            = q.length + (s :: ss).length - 10 from by
        rw [List.length_append, List.length_singleton, List.length_cons]; omega]
    · have hq10 : q.length = 10 := by omega
      obtain ⟨x, q2, rfl⟩ : ∃ x q2, q = x :: q2 := by
        cases q with
        | nil => simp at hq10
        | cons x q2 => exact ⟨x, q2, rfl⟩
      have hq2 : q2.length = 9 := by simpa using hq10
      rw [show scan_queue_put (x :: q2) s = (x :: q2).drop 1 ++ [s] by
        simp [scan_queue_put, scan_queue_maxsize, hfull]
        omega]
      rw [List.drop_one, List.tail_cons]
      rw [ih (q2 ++ [s]) (by rw [List.length_append, List.length_singleton]; omega)]
      rw [List.append_assoc, List.singleton_append]
      rw [show (q2 ++ [s]).length + ss.length - 10 = ss.length from by
        rw [List.length_append, List.length_singleton]; omega]
      rw [show (x :: q2).length + (s :: ss).length - 10 = ss.length + 1 from by
        rw [List.length_cons, List.length_cons]; omega]
      rw [List.cons_append, List.drop_succ_cons]

/-- C5: pushing 15 completed scans through the capacity-10 delivery queue
with no consumer leaves exactly the 10 most recently produced scans, in
arrival order (drop-oldest); `scan_queue_put` is a total function, so the
producer is never blocked. -/
theorem queue_retains_ten_most_recent (scans : List LaserScan)
    (h : scans.length = 15) :
    List.foldl scan_queue_put [] scans = scans.drop 5 := by
  rw [scan_queue_put_foldl scans [] (by simp)]
  simp [h]

/-- Witness for C5 at 15 concrete scans. -/
theorem queue_retains_ten_most_recent_witness :
    List.foldl scan_queue_put []
        ((List.range 15).map fun k => LaserScan.mk [⟨0, 0, k⟩] 0) =
      ((List.range 15).map fun k => LaserScan.mk [⟨0, 0, k⟩] 0).drop 5 :=
  queue_retains_ten_most_recent _ (by decide)

/-! ### Scan assembly -/

/-- C1 counterexample: feeding the assembler
P1 (zero flag set, 5 points), P2 (flag clear, 5 points),
P3 (flag set, 5 points) from an empty accumulator emits TWO scans, not
one: the accumulator is extended with the triggering packet's points
before the emptiness test, so P1 alone is emitted first, and the second
scan is P2 followed by P3 — not P1 followed by P2. -/
theorem scan_assembly_counterexample :
    (process_packets ⟨[], [], 0, []⟩
        [(⟨[⟨0, 0, 0⟩, ⟨0, 0, 1⟩, ⟨0, 0, 2⟩, ⟨0, 0, 3⟩, ⟨0, 0, 4⟩], 1⟩, true),
         (⟨[⟨0, 0, 5⟩, ⟨0, 0, 6⟩, ⟨0, 0, 7⟩, ⟨0, 0, 8⟩, ⟨0, 0, 9⟩], 1⟩, false),
         (⟨[⟨0, 0, 10⟩, ⟨0, 0, 11⟩, ⟨0, 0, 12⟩, ⟨0, 0, 13⟩, ⟨0, 0, 14⟩], 1⟩,
          true)]).emitted.length = 2 := by
  decide

/-- C1 amended: on the sequence P1 (flag set, points `a`), P2 (flag
clear, points `b`), P3 (flag set, points `c`) from startup state, the
assembler emits two scans: first `a` (the triggering packet's own points
are appended before the emptiness test), then `b ++ c`; the accumulator
is left empty. -/
theorem scan_assembly_amended (a b c : List LaserPoint) (fa fb fc : ℚ)
    (ha : a ≠ []) (hc : c ≠ []) :
    process_packets ⟨[], [], 0, []⟩
        [(⟨a, fa⟩, true), (⟨b, fb⟩, false), (⟨c, fc⟩, true)]
      = ⟨[], [⟨a, fa⟩, ⟨b ++ c, fc⟩], 2, [⟨a, fa⟩, ⟨b ++ c, fc⟩]⟩ := by
  have ha2 : 0 < a.length := List.length_pos.mpr ha
  have hc2 : 0 < (b ++ c).length := by
    rw [List.length_append]
    have := List.length_pos.mpr hc
    omega
  simp [process_packets, process_packet_result, scan_queue_put,
    scan_queue_maxsize, ha2, hc2]
  intro _
  exact hc

/-- Witness for the amended C1 at concrete packets. -/
theorem scan_assembly_amended_witness :
    process_packets ⟨[], [], 0, []⟩
        [(⟨[⟨0, 0, 1⟩], 0⟩, true), (⟨[], 0⟩, false), (⟨[⟨0, 0, 2⟩], 0⟩, true)]
      = ⟨[], [⟨[⟨0, 0, 1⟩], 0⟩, ⟨[⟨0, 0, 2⟩], 0⟩], 2,
          [⟨[⟨0, 0, 1⟩], 0⟩, ⟨[⟨0, 0, 2⟩], 0⟩]⟩ := by
  have h := scan_assembly_amended [⟨0, 0, 1⟩] [] [⟨0, 0, 2⟩] 0 0 0
    (by decide) (by decide)
  simpa using h

/-- C3 counterexample: a zero-position packet decoded while the
accumulator is empty IS emitted as a (single-packet) scan — the packet's
points are appended to the accumulator before the emptiness test, so the
accumulator is no longer empty when tested. -/
theorem first_zero_packet_counterexample :
    (process_packet_result ⟨[], [], 0, []⟩ ⟨[⟨0, 0, 0⟩], 1⟩ true).emitted
      = [⟨[⟨0, 0, 0⟩], 1⟩] := by
  decide

/-- C3 amended: when a zero-position packet with a non-empty point list
arrives on an empty accumulator, the assembler emits a scan holding
exactly that packet's points (and its frequency), pushes it on the
queue, bumps the scan count, and leaves the accumulator empty. -/
theorem first_zero_packet_amended (scan : LaserScan) (q : List LaserScan)
    (n : Nat) (e : List LaserScan) (h : scan.points ≠ []) :
    process_packet_result ⟨[], q, n, e⟩ scan true
      = ⟨[], scan_queue_put q scan, n + 1, e ++ [scan]⟩ := by
  have h2 : 0 < scan.points.length := List.length_pos.mpr h
  simp [process_packet_result, h2]

/-- Witness for the amended C3 at a concrete packet. -/
theorem first_zero_packet_amended_witness :
    process_packet_result ⟨[], [], 0, []⟩ ⟨[⟨0, 0, 3⟩], 2⟩ true
      = ⟨[], scan_queue_put [] ⟨[⟨0, 0, 3⟩], 2⟩, 0 + 1, [] ++ [⟨[⟨0, 0, 3⟩], 2⟩]⟩ :=
  first_zero_packet_amended ⟨[⟨0, 0, 3⟩], 2⟩ [] 0 [] (by decide)

/-- Every scan appended to `emitted` by one assembly step is non-empty
(or was already there). -/
theorem process_packet_result_emitted_mem (st : DriverState) (s : LaserScan)
    (b : Bool) (scan : LaserScan)
    (h : scan ∈ (process_packet_result st s b).emitted) :
    scan ∈ st.emitted ∨ scan.points ≠ [] := by
  unfold process_packet_result at h
  by_cases hcond : b = true ∧ (st.current_scan_points ++ s.points).length > 0
  · rw [if_pos hcond] at h
    simp only [List.mem_append, List.mem_singleton] at h
    rcases h with h | h
    · exact Or.inl h
    · right
      subst h
      simp only [ne_eq]
      intro hnil
      rw [hnil] at hcond
      simp at hcond
  · rw [if_neg hcond] at h
    exact Or.inl h

/-- C8: every scan emitted (to the callback and the delivery queue) by a
sequence of decoded packets run through the assembler has at least one
point: the emission guard requires a non-empty accumulator. -/
theorem emitted_scans_nonempty (st : DriverState)
    (pkts : List (LaserScan × Bool)) (scan : LaserScan)
    (h : scan ∈ (process_packets st pkts).emitted) :
    scan ∈ st.emitted ∨ scan.points ≠ [] := by
  induction pkts generalizing st with
  | nil => exact Or.inl h
  | cons p rest ih =>
    obtain ⟨s, b⟩ := p
    rw [process_packets] at h
    rcases ih (process_packet_result st s b) h with h2 | h2
    · exact process_packet_result_emitted_mem st s b scan h2
    · exact Or.inr h2

/-- Witness for C8 at a concrete one-packet run that does emit. -/
theorem emitted_scans_nonempty_witness :
    (⟨[⟨0, 0, 7⟩], 2⟩ : LaserScan) ∈ (⟨[], [], 0, []⟩ : DriverState).emitted ∨
      (⟨[⟨0, 0, 7⟩], 2⟩ : LaserScan).points ≠ [] :=
  emitted_scans_nonempty ⟨[], [], 0, []⟩ [(⟨[⟨0, 0, 7⟩], 2⟩, true)]
    ⟨[⟨0, 0, 7⟩], 2⟩ (by decide)

/-! ### Angle interpolation and sample extraction -/

/-- `a % 360.0` is the identity on `[0, 360)`. -/
theorem pymod_eq_self (a : ℚ) (h0 : 0 ≤ a) (h1 : a < 360) : pymod a 360 = a := by
  unfold pymod
  rw [show ⌊a / 360⌋ = 0 from by
    rw [Int.floor_eq_zero_iff]
    refine ⟨div_nonneg h0 (by norm_num), ?_⟩
    rw [div_lt_one (by norm_num : (0:ℚ) < 360)]
    exact h1]
  norm_num

/-- `a % 360.0` subtracts one turn on `[360, 720)`. -/
theorem pymod_eq_sub (a : ℚ) (h0 : 360 ≤ a) (h1 : a < 720) : pymod a 360 = a - 360 := by
  unfold pymod
  rw [show ⌊a / 360⌋ = 1 from by
    rw [Int.floor_eq_iff]
    constructor
    · push_cast
      rw [le_div_iff₀ (by norm_num : (0:ℚ) < 360)]
      linarith
    · push_cast
      rw [div_lt_iff₀ (by norm_num : (0:ℚ) < 360)]
      linarith]
  norm_num

/-- C6: the angle of sample `i` is linear interpolation from
`angle_deg fsa` over the span `angle_deg lsa - angle_deg fsa` (bumped by
360 when negative), for one sample it is the start angle, and
normalisation modulo 360 happens only after interpolation; in
particular fsa raw 44801 (350 degrees) and lsa raw 1281 (10 degrees)
with 3 samples give a 20-degree span and angles 350, 0, 10 — not -340. -/
theorem angle_interpolation :
    (∀ fsa lsa lsn i, 1 < lsn →
        angle_at fsa lsa lsn i =
          pymod (angle_deg fsa + (i : ℚ) *
            (if angle_deg lsa - angle_deg fsa < 0
             then angle_deg lsa - angle_deg fsa + 360
             else angle_deg lsa - angle_deg fsa) / ((lsn - 1 : Nat) : ℚ)) 360)
    ∧ (∀ fsa lsa i, angle_at fsa lsa 1 i = pymod (angle_deg fsa) 360)
    ∧ angle_deg 1281 - angle_deg 44801 + 360 = 20
    ∧ angle_at 44801 1281 3 0 = 350
    ∧ angle_at 44801 1281 3 1 = 0
    ∧ angle_at 44801 1281 3 2 = 10 := by
  have e1 : angle_deg 44801 = 350 := by
    unfold angle_deg
    simp only [Nat.reduceShiftRight]
    norm_num
  have e2 : angle_deg 1281 = 10 := by
    unfold angle_deg
    simp only [Nat.reduceShiftRight]
    norm_num
  refine ⟨?_, ?_, ?_, ?_, ?_, ?_⟩
  · intro fsa lsa lsn i h
    simp only [angle_at]
    rw [if_pos h]
  · intro fsa lsa i
    simp only [angle_at]
    norm_num
  · rw [e1, e2]
    norm_num
  · simp only [angle_at, e1, e2]
    norm_num
    rw [pymod_eq_self] <;> norm_num
  · simp only [angle_at, e1, e2]
    norm_num
    rw [pymod_eq_sub] <;> norm_num
  · simp only [angle_at, e1, e2]
    norm_num
    rw [pymod_eq_sub] <;> norm_num

/-- Witness for C6: the interpolation formula instantiated at the
wraparound packet (sample 1 of 3) and at a one-sample packet. -/
theorem angle_interpolation_witness :
    (angle_at 44801 1281 3 1 =
      pymod (angle_deg 44801 + (1 : ℚ) *
        (if angle_deg 1281 - angle_deg 44801 < 0
         then angle_deg 1281 - angle_deg 44801 + 360
         else angle_deg 1281 - angle_deg 44801) / ((3 - 1 : Nat) : ℚ)) 360)
    ∧ angle_at 5 7 1 0 = pymod (angle_deg 5) 360 :=
  ⟨angle_interpolation.1 44801 1281 3 1 (by decide),
   angle_interpolation.2.1 5 7 0⟩

/-- Indexing the intensity-mode point list: when `data` holds at least
`3 * (i + k)` bytes, sample `j` of the loop started at `i` with `k`
iterations is `point_at` for index `i + j`. -/
theorem parse_points_go_get (cfg : Config) (hcfg : cfg.has_intensity = true)
    (data : List Nat) (lsn fsa lsa : Nat) :
    ∀ k i j, j < k → 3 * (i + k) ≤ data.length →
      (parse_points_go cfg data lsn fsa lsa i k).get? j
        = some (point_at cfg data lsn fsa lsa (i + j)) := by
  intro k
  induction k with
  | zero => intro i j h _; omega
  | succ k ih =>
    intro i j hj hlen
    rw [parse_points_go, hcfg]
    rw [if_pos rfl, if_neg (by omega)]
    cases j with
    | zero => rw [List.get?_cons_zero, Nat.add_zero]
    | succ j =>
      rw [List.get?_cons_succ]
      rw [ih (i+1) j (by omega) (by omega)]
      rw [show i + 1 + j = i + (j + 1) from by omega]

/-- C7: in intensity mode, sample `i` of a decoded payload has
`raw_distance = ((b2 << 8) | b1) & 0xFFFC`, distance
`raw_distance / 4.0 / 1000.0` metres, and intensity `b0` (8-bit mode) or
`((b1 & 0x03) << 8) | b0` (10-bit mode), where `b0 b1 b2` are the bytes
at offsets `i*3`, `i*3+1`, `i*3+2`. -/
theorem sample_extraction_intensity (bit : Nat) (data : List Nat)
    (lsn fsa lsa i : Nat) (h1 : i < lsn) (h2 : data.length = 3 * lsn) :
    (parse_points ⟨true, bit⟩ data lsn fsa lsa).get? i =
      some ⟨angle_at fsa lsa lsn i,
        ((((data.getD (i*3+2) 0 <<< 8) ||| data.getD (i*3+1) 0) &&& 0xFFFC : Nat) : ℚ)
          / 4 / 1000,
        if bit = 10 then ((data.getD (i*3+1) 0 &&& 0x03) <<< 8) ||| data.getD (i*3) 0
        else data.getD (i*3) 0⟩ := by
  rw [parse_points,
    parse_points_go_get ⟨true, bit⟩ rfl data lsn fsa lsa lsn 0 i h1 (by omega)]
  simp [point_at]

/-- Witness for C7: the payload bytes `[200, 128, 62]` encode raw
distance 16000 and intensity byte 200; in 8-bit mode they decode to
4.000 metres and intensity 200. -/
theorem sample_extraction_intensity_witness :
    (parse_points ⟨true, 8⟩ [200, 128, 62] 1 0 0).get? 0 =
      some ⟨0, 4, 200⟩ := by
  have h := sample_extraction_intensity 8 [200, 128, 62] 1 0 0 0
    (by decide) (by decide)
  rw [h]
  have ha : angle_at 0 0 1 0 = 0 := by
    simp only [angle_at, angle_deg]
    norm_num
    rw [pymod_eq_self] <;> norm_num
  have hd : ((([200, 128, 62] : List Nat).getD (0 * 3 + 2) 0 <<< 8 |||
      ([200, 128, 62] : List Nat).getD (0 * 3 + 1) 0) &&& 0xFFFC) = 16000 := by
    decide
  have hi : ([200, 128, 62] : List Nat).getD (0 * 3) 0 = 200 := by decide
  rw [ha, hd, hi]
  norm_num

/-! ### parse_packet totality and point count -/

/-- The sample loop never hits its break when the payload holds all its
samples: it produces exactly `k` points. -/
theorem parse_points_go_length (cfg : Config) (data : List Nat)
    (lsn fsa lsa : Nat) :
    ∀ k i, (i + k) * bytes_per_point cfg ≤ data.length →
      (parse_points_go cfg data lsn fsa lsa i k).length = k := by
  intro k
  induction k with
  | zero =>
    intro i _
    rw [parse_points_go]
    rfl
  | succ k ih =>
    intro i hlen
    rw [parse_points_go]
    rcases hint : cfg.has_intensity with _ | _
    · rw [if_neg (by simp [hint])]
      rw [if_neg (by simp [bytes_per_point, hint] at hlen; omega)]
      rw [List.length_cons, ih (i+1) (by simp [bytes_per_point, hint] at hlen ⊢; omega)]
    · rw [if_pos (by simp [hint])]
      rw [if_neg (by simp [bytes_per_point, hint] at hlen; omega)]
      rw [List.length_cons, ih (i+1) (by simp [bytes_per_point, hint] at hlen ⊢; omega)]

/-- `_parse_points` returns exactly `lsn` points whenever the payload is
at least `lsn` samples long. -/
theorem parse_points_length (cfg : Config) (data : List Nat)
    (lsn fsa lsa : Nat) (h : lsn * bytes_per_point cfg ≤ data.length) :
    (parse_points cfg data lsn fsa lsa).length = lsn := by
  rw [parse_points]
  exact parse_points_go_length cfg data lsn fsa lsa lsn 0 (by rw [Nat.zero_add]; exact h)

/-- A successful `_parse_header` returns the sample count read from byte
3 of the header. -/
theorem parse_header_lsn (hd : List Nat) (ph ct lsn fsa lsa cs : Nat)
    (h : parse_header hd = some (ph, ct, lsn, fsa, lsa, cs)) :
    lsn = hd.getD 3 0 := by
  unfold parse_header at h
  split at h
  · exact absurd h (by simp)
  · split at h
    · exact absurd h (by simp)
    · dsimp only at h
      split at h
      · exact absurd h (by simp)
      · simp only [Option.some.injEq, Prod.mk.injEq] at h
        exact h.2.2.1.symm

/-- C9: `parse_packet` is total — it returns `none` or a scan — and any
returned scan holds exactly the header's sample count (byte 3 of the
input) of points. -/
theorem parse_packet_point_count (cfg : Config) (data : List Nat) :
    parse_packet cfg data = none ∨
      ∃ scan is_new, parse_packet cfg data = some (scan, is_new) ∧
        scan.points.length = data.getD 3 0 := by
  by_cases h10 : data.length < HEADER_SIZE
  · left
    rw [parse_packet, if_pos h10]
  · rcases hh : parse_header (data.take HEADER_SIZE) with _ | ⟨ph, ct, lsn, fsa, lsa, cs⟩
    · left
      rw [parse_packet, if_neg h10, hh]
    · by_cases hsz : data.length < HEADER_SIZE + lsn * bytes_per_point cfg
      · left
        rw [parse_packet, if_neg h10, hh]
        simp only
        rw [if_pos hsz]
      · by_cases hcs : verify_checksum cfg
            (data.take (HEADER_SIZE + lsn * bytes_per_point cfg)) cs = true
        · right
          refine ⟨⟨parse_points cfg ((data.drop HEADER_SIZE).take
              (lsn * bytes_per_point cfg)) lsn fsa lsa,
              ((ct >>> 1 : Nat) : ℚ) * (1 / 10)⟩, (ct &&& 1) != 0, ?_, ?_⟩
          · rw [parse_packet, if_neg h10, hh]
            simp only
            rw [if_neg hsz, if_neg (not_not_intro hcs)]
          · have hlen2 : ((data.drop HEADER_SIZE).take
                (lsn * bytes_per_point cfg)).length = lsn * bytes_per_point cfg := by
              rw [List.length_take, List.length_drop]
              simp only [HEADER_SIZE] at h10 hsz ⊢
              omega
            have := parse_points_length cfg ((data.drop HEADER_SIZE).take
              (lsn * bytes_per_point cfg)) lsn fsa lsa (by rw [hlen2])
            rw [this]
            have h3 : lsn = (data.take HEADER_SIZE).getD 3 0 :=
              parse_header_lsn _ ph ct lsn fsa lsa cs hh
            rw [h3, List.getD_eq_getD_get?, List.getD_eq_getD_get?,
              List.get?_take (by simp [HEADER_SIZE] : 3 < HEADER_SIZE)]
        · left
          rw [parse_packet, if_neg h10, hh]
          simp only
          rw [if_neg hsz, if_pos (by simpa using hcs)]

/-! ### Framing: resynchronisation behaviour -/

/-- `_find_header` finds nothing when no two adjacent bytes are
`0xAA, 0x55`. -/
theorem find_header_go_none (l : List Nat) :
    ∀ i, (∀ j, j + 1 < l.length → ¬(l.getD j 0 = 0xAA ∧ l.getD (j+1) 0 = 0x55)) →
      find_header_go l i = none := by
  induction l with
  | nil => intro i _; rfl
  | cons a tl ih =>
    intro i hno
    cases tl with
    | nil => rfl
    | cons b rest =>
      rw [find_header_go]
      rw [if_neg (by
        have := hno 0 (by simp)
        simpa using this)]
      apply ih
      intro j hj
      have := hno (j+1) (by simp only [List.length_cons] at hj ⊢; omega)
      simpa using this

/-- A buffer shorter than the header makes `_process_buffer` return at
once without touching anything. -/
theorem process_buffer_stop (cfg : Config) (buffer : List Nat)
    (st : DriverState) (h : buffer.length < HEADER_SIZE) :
    process_buffer cfg buffer st = (buffer, st) := by
  unfold process_buffer
  rw [dif_neg (by omega)]

/-- C10: a buffer of at least 10 bytes with no complete `0xAA, 0x55`
sync marker — a trailing lone `0xAA` included — is cleared whole in one
framer pass, so a marker split across two reads is discarded, not
completed by the next read. -/
theorem no_sync_marker_clears_buffer (cfg : Config) (buffer : List Nat)
    (st : DriverState) (hlen : HEADER_SIZE ≤ buffer.length)
    (hno : ∀ j ∈ List.range (buffer.length - 1),
        ¬(buffer.getD j 0 = 0xAA ∧ buffer.getD (j+1) 0 = 0x55)) :
    process_buffer cfg buffer st = ([], st) := by
  have hfh : find_header buffer = none := by
    rw [find_header]
    apply find_header_go_none
    intro j hj
    exact hno j (List.mem_range.mpr (by omega))
  unfold process_buffer
  rw [dif_pos hlen, hfh]

/-- Witness for C10: ten bytes with no marker, ending in a lone `0xAA`. -/
theorem no_sync_marker_clears_buffer_witness :
    process_buffer ⟨true, 8⟩ [1, 2, 3, 4, 5, 6, 7, 8, 9, 0xAA] ⟨[], [], 0, []⟩
      = ([], ⟨[], [], 0, []⟩) :=
  no_sync_marker_clears_buffer ⟨true, 8⟩ [1, 2, 3, 4, 5, 6, 7, 8, 9, 0xAA]
    ⟨[], [], 0, []⟩ (by decide) (by decide)

/-- A ten-byte packet slice whose sample-count byte is 0 is rejected by
the decoder (header validation), not by the framer. -/
theorem parse_packet_lsn_zero (cfg : Config) (ct b4 b5 b6 b7 b8 b9 : Nat) :
    parse_packet cfg [0xAA, 0x55, ct, 0, b4, b5, b6, b7, b8, b9] = none := by
  rw [parse_packet, if_neg (by simp [HEADER_SIZE])]
  rw [show (([0xAA, 0x55, ct, 0, b4, b5, b6, b7, b8, b9] : List Nat)).take HEADER_SIZE
      = [0xAA, 0x55, ct, 0, b4, b5, b6, b7, b8, b9] from by
    rw [show HEADER_SIZE = ([0xAA, 0x55, ct, 0, b4, b5, b6, b7, b8, b9] :
        List Nat).length from by simp [HEADER_SIZE]]
    exact List.take_length _]
  rw [show parse_header [0xAA, 0x55, ct, 0, b4, b5, b6, b7, b8, b9] = none from by
    rw [parse_header]
    rw [if_neg (by simp [HEADER_SIZE])]
    rw [if_neg (by simp [List.getD])]
    dsimp only
    rw [if_pos (by simp [List.getD, MAX_POINTS_PER_PACKET])]]

/-- When the located header carries sample count 0, the framer computes
packet size 10, slices off exactly those 10 header bytes (which the
decoder rejects), and carries on with the remaining bytes untouched. -/
theorem framer_lsn_zero_step (cfg : Config) (ct b4 b5 b6 b7 b8 b9 : Nat)
    (rest : List Nat) (st : DriverState) (hrest : rest.length < HEADER_SIZE) :
    process_buffer cfg ([0xAA, 0x55, ct, 0, b4, b5, b6, b7, b8, b9] ++ rest) st
      = (rest, st) := by
  unfold process_buffer
  rw [dif_pos (by simp [HEADER_SIZE])]
  rw [show find_header ([0xAA, 0x55, ct, 0, b4, b5, b6, b7, b8, b9] ++ rest)
      = some 0 from rfl]
  dsimp only
  rw [List.drop_zero]
  rw [if_neg (by simp [HEADER_SIZE])]
  rw [show (([0xAA, 0x55, ct, 0, b4, b5, b6, b7, b8, b9] : List Nat) ++ rest).getD 3 0
      = 0 from by simp [List.getD]]
  rw [Nat.zero_mul, Nat.add_zero]
  rw [if_neg (by simp [HEADER_SIZE])]
  rw [show (([0xAA, 0x55, ct, 0, b4, b5, b6, b7, b8, b9] : List Nat) ++ rest).take
      HEADER_SIZE = [0xAA, 0x55, ct, 0, b4, b5, b6, b7, b8, b9] from by
    rw [show HEADER_SIZE = ([0xAA, 0x55, ct, 0, b4, b5, b6, b7, b8, b9] :
        List Nat).length from by simp [HEADER_SIZE]]
    exact List.take_left _ _]
  rw [show (([0xAA, 0x55, ct, 0, b4, b5, b6, b7, b8, b9] : List Nat) ++ rest).drop
      HEADER_SIZE = rest from by
    rw [show HEADER_SIZE = ([0xAA, 0x55, ct, 0, b4, b5, b6, b7, b8, b9] :
        List Nat).length from by simp [HEADER_SIZE]]
    exact List.drop_left _ _]
  rw [parse_packet_lsn_zero]
  exact process_buffer_stop cfg rest st hrest

/-- A packet slice whose sample-count byte is above 80 is rejected by
the decoder (header validation), not by the framer. -/
theorem parse_packet_lsn_over (cfg : Config) (ct lsn b4 b5 b6 b7 b8 b9 : Nat)
    (payload : List Nat) (hlsn : 80 < lsn) :
    parse_packet cfg ([0xAA, 0x55, ct, lsn, b4, b5, b6, b7, b8, b9] ++ payload)
      = none := by
  rw [parse_packet]
  rw [if_neg (by
    simp only [HEADER_SIZE, List.length_append, List.length_cons, List.length_nil]
    omega)]
  rw [show (([0xAA, 0x55, ct, lsn, b4, b5, b6, b7, b8, b9] : List Nat)
      ++ payload).take HEADER_SIZE
      = [0xAA, 0x55, ct, lsn, b4, b5, b6, b7, b8, b9] from by
    rw [show HEADER_SIZE = ([0xAA, 0x55, ct, lsn, b4, b5, b6, b7, b8, b9] :
        List Nat).length from by simp [HEADER_SIZE]]
    exact List.take_left _ _]
  rw [show parse_header [0xAA, 0x55, ct, lsn, b4, b5, b6, b7, b8, b9] = none from by
    rw [parse_header]
    rw [if_neg (by simp [HEADER_SIZE])]
    rw [if_neg (by simp [List.getD])]
    dsimp only
    rw [if_pos (by
      simp only [List.getD_cons_succ, List.getD_cons_zero, MAX_POINTS_PER_PACKET]
      omega)]]

/-- For a located header with sample count above 80 and an incomplete
declared packet, the framer leaves the buffer intact and waits for more
bytes. -/
theorem framer_lsn_over_wait (cfg : Config) (ct lsn b4 b5 b6 b7 b8 b9 : Nat)
    (rest : List Nat) (st : DriverState) (_hlsn : 80 < lsn)
    (hwait : rest.length < lsn * bytes_per_point cfg) :
    process_buffer cfg ([0xAA, 0x55, ct, lsn, b4, b5, b6, b7, b8, b9] ++ rest) st
      = ([0xAA, 0x55, ct, lsn, b4, b5, b6, b7, b8, b9] ++ rest, st) := by
  unfold process_buffer
  rw [dif_pos (by simp [HEADER_SIZE])]
  rw [show find_header ([0xAA, 0x55, ct, lsn, b4, b5, b6, b7, b8, b9] ++ rest)
      = some 0 from rfl]
  dsimp only
  rw [List.drop_zero]
  rw [if_neg (by simp [HEADER_SIZE])]
  rw [show (([0xAA, 0x55, ct, lsn, b4, b5, b6, b7, b8, b9] : List Nat) ++ rest).getD 3 0
      = lsn from by simp [List.getD]]
  rw [if_pos (by
    simp only [HEADER_SIZE, List.length_append, List.length_cons, List.length_nil]
    omega)]

/-- For a located header with sample count above 80 and a fully buffered
declared packet, the framer discards exactly the declared slice (header
plus payload), the decoder rejects it, and processing continues on the
remaining bytes with the state untouched. -/
theorem framer_lsn_over_discard (cfg : Config) (ct lsn b4 b5 b6 b7 b8 b9 : Nat)
    (payload tail : List Nat) (st : DriverState) (hlsn : 80 < lsn)
    (hpay : payload.length = lsn * bytes_per_point cfg)
    (htail : tail.length < HEADER_SIZE) :
    process_buffer cfg
        ([0xAA, 0x55, ct, lsn, b4, b5, b6, b7, b8, b9] ++ (payload ++ tail)) st
      = (tail, st) := by
  unfold process_buffer
  rw [dif_pos (by simp [HEADER_SIZE])]
  rw [show find_header
      ([0xAA, 0x55, ct, lsn, b4, b5, b6, b7, b8, b9] ++ (payload ++ tail))
      = some 0 from rfl]
  dsimp only
  rw [List.drop_zero]
  rw [if_neg (by simp [HEADER_SIZE])]
  rw [show (([0xAA, 0x55, ct, lsn, b4, b5, b6, b7, b8, b9] : List Nat)
      ++ (payload ++ tail)).getD 3 0 = lsn from by simp [List.getD]]
  rw [if_neg (by
    simp only [HEADER_SIZE, List.length_append, List.length_cons, List.length_nil]
    omega)]
  rw [show ([0xAA, 0x55, ct, lsn, b4, b5, b6, b7, b8, b9] : List Nat)
      ++ (payload ++ tail)
      = (([0xAA, 0x55, ct, lsn, b4, b5, b6, b7, b8, b9] : List Nat) ++ payload)
        ++ tail from by simp]
  rw [show HEADER_SIZE + lsn * bytes_per_point cfg
      = (([0xAA, 0x55, ct, lsn, b4, b5, b6, b7, b8, b9] : List Nat)
          ++ payload).length from by
    simp only [HEADER_SIZE, List.length_append, List.length_cons, List.length_nil]
    omega]
  rw [List.take_left, List.drop_left]
  rw [parse_packet_lsn_over cfg ct lsn b4 b5 b6 b7 b8 b9 payload hlsn]
  exact process_buffer_stop cfg tail st htail

/-- C2 amended: the framer never validates the sample count and never
clears the buffer for it — the `[1, 80]` range check lives in the
decoder, which rejects just that packet.  For a located header with
sample count 0 the framer consumes exactly the 10 header bytes and
continues with the remaining buffer; for a sample count above 80 it
waits until `10 + count * bytes_per_sample` bytes are buffered, leaving
the buffer intact, and once they are it discards exactly that slice and
continues with the rest. -/
theorem framer_bad_lsn_amended :
    (∀ (cfg : Config) (ct b4 b5 b6 b7 b8 b9 : Nat) (rest : List Nat)
        (st : DriverState), rest.length < HEADER_SIZE →
        process_buffer cfg ([0xAA, 0x55, ct, 0, b4, b5, b6, b7, b8, b9] ++ rest) st
          = (rest, st))
    ∧ (∀ (cfg : Config) (ct lsn b4 b5 b6 b7 b8 b9 : Nat) (rest : List Nat)
        (st : DriverState), 80 < lsn → rest.length < lsn * bytes_per_point cfg →
        process_buffer cfg ([0xAA, 0x55, ct, lsn, b4, b5, b6, b7, b8, b9] ++ rest) st
          = ([0xAA, 0x55, ct, lsn, b4, b5, b6, b7, b8, b9] ++ rest, st))
    ∧ (∀ (cfg : Config) (ct lsn b4 b5 b6 b7 b8 b9 : Nat) (payload tail : List Nat)
        (st : DriverState), 80 < lsn →
        payload.length = lsn * bytes_per_point cfg → tail.length < HEADER_SIZE →
        process_buffer cfg
            ([0xAA, 0x55, ct, lsn, b4, b5, b6, b7, b8, b9] ++ (payload ++ tail)) st
          = (tail, st)) :=
  ⟨framer_lsn_zero_step, framer_lsn_over_wait, framer_lsn_over_discard⟩

/-- C2 counterexample: a 14-byte buffer whose header carries sample
count 0 (outside `[1, 80]`).  One framer pass consumes only the 10
header bytes and leaves the other 4 bytes in the buffer — the buffer is
NOT cleared. -/
theorem framer_bad_lsn_counterexample :
    process_buffer ⟨true, 8⟩ [0xAA, 0x55, 0, 0, 0, 0, 0, 0, 0, 0, 1, 2, 3, 4]
        ⟨[], [], 0, []⟩
      = ([1, 2, 3, 4], ⟨[], [], 0, []⟩) := by
  have h := framer_lsn_zero_step ⟨true, 8⟩ 0 0 0 0 0 0 0 [1, 2, 3, 4]
    ⟨[], [], 0, []⟩ (by decide)
  simpa using h

/-- Witness for the amended C2: a count-0 header consumes 10 bytes and
leaves the rest; a count-81 header with a short buffer waits untouched;
a count-81 header with its full 162-byte (2 bytes/sample) slice buffered
discards exactly that slice. -/
theorem framer_bad_lsn_amended_witness :
    (process_buffer ⟨false, 8⟩ ([0xAA, 0x55, 7, 0, 1, 2, 3, 4, 5, 6] ++ [9])
        ⟨[], [], 0, []⟩
      = ([9], ⟨[], [], 0, []⟩))
    ∧ (process_buffer ⟨true, 8⟩ ([0xAA, 0x55, 0, 81, 0, 0, 0, 0, 0, 0] ++ [])
        ⟨[], [], 0, []⟩
      = ([0xAA, 0x55, 0, 81, 0, 0, 0, 0, 0, 0] ++ [], ⟨[], [], 0, []⟩))
    ∧ (process_buffer ⟨false, 8⟩
          ([0xAA, 0x55, 0, 81, 0, 0, 0, 0, 0, 0] ++ (List.replicate 162 0 ++ []))
          ⟨[], [], 0, []⟩
      = ([], ⟨[], [], 0, []⟩)) :=
  ⟨framer_bad_lsn_amended.1 ⟨false, 8⟩ 7 1 2 3 4 5 6 [9] ⟨[], [], 0, []⟩
      (by decide),
   framer_bad_lsn_amended.2.1 ⟨true, 8⟩ 0 81 0 0 0 0 0 0 [] ⟨[], [], 0, []⟩
      (by decide) (by decide),
   framer_bad_lsn_amended.2.2 ⟨false, 8⟩ 0 81 0 0 0 0 0 0 (List.replicate 162 0) []
      ⟨[], [], 0, []⟩ (by decide) (by simp [bytes_per_point]) (by decide)⟩

/-! ### Checksum: helper lemmas on bytes and XOR -/

/-- Reading any position of an all-byte list yields a byte. -/
theorem getD_lt_256 (l : List Nat) (h : ∀ x ∈ l, x < 256) (q : Nat) :
    l.getD q 0 < 256 := by
  rw [List.getD_eq_getD_get?]
  rcases hq : l.get? q with _ | x
  · simp
  · simpa using h x (List.get?_mem hq)

/-- XOR with a nonzero mask changes a number. -/
theorem xor_ne_self (x m : Nat) (h : m ≠ 0) : x ^^^ m ≠ x := by
  intro he
  apply h
  have h2 : x ^^^ (x ^^^ m) = x ^^^ x := congrArg (fun y => x ^^^ y) he
  rw [← Nat.xor_assoc, Nat.xor_self, Nat.zero_xor] at h2
  exact h2

/-- Flipping bits of the low byte of a little-endian word flips the same
bits of the word. -/
theorem le16_xor_lo (lo hi m : Nat) (hlo : lo < 256) (hm : m < 256) :
    le16 (lo ^^^ m) hi = le16 lo hi ^^^ m := by
  unfold le16
  apply Nat.eq_of_testBit_eq
  intro j
  simp only [Nat.testBit_lor, Nat.testBit_xor, Nat.testBit_shiftLeft]
  by_cases h8 : 8 ≤ j
  · have hb : (256 : Nat) ≤ 2 ^ j := by
      calc (256 : Nat) = 2 ^ 8 := by norm_num
      _ ≤ 2 ^ j := Nat.pow_le_pow_right (by norm_num) h8
    have hlo2 : lo.testBit j = false := Nat.testBit_lt_two_pow (by omega)
    have hm2 : m.testBit j = false := Nat.testBit_lt_two_pow (by omega)
    have hxor : (lo ^^^ m).testBit j = false := by
      rw [Nat.testBit_xor, hlo2, hm2]
      rfl
    simp [h8, hlo2, hm2, hxor, Nat.testBit_xor]
  · simp [h8, Nat.testBit_xor]

/-- Flipping bits of the high byte of a little-endian word flips the
same bits of the word, shifted by 8. -/
theorem le16_xor_hi (lo hi m : Nat) (hlo : lo < 256) :
    le16 lo (hi ^^^ m) = le16 lo hi ^^^ (m <<< 8) := by
  unfold le16
  apply Nat.eq_of_testBit_eq
  intro j
  simp only [Nat.testBit_lor, Nat.testBit_xor, Nat.testBit_shiftLeft]
  by_cases h8 : 8 ≤ j
  · have hb : (256 : Nat) ≤ 2 ^ j := by
      calc (256 : Nat) = 2 ^ 8 := by norm_num
      _ ≤ 2 ^ j := Nat.pow_le_pow_right (by norm_num) h8
    have hlo2 : lo.testBit j = false := Nat.testBit_lt_two_pow (by omega)
    simp [h8, hlo2, Nat.testBit_xor]
  · simp [h8]

/-- Left commutativity of XOR on `Nat`. -/
theorem nat_xor_left_comm (a b c : Nat) : a ^^^ (b ^^^ c) = b ^^^ (a ^^^ c) := by
  rw [← Nat.xor_assoc, Nat.xor_comm a b, Nat.xor_assoc]

/-- The intensity loop commutes with XOR-ing the accumulator. -/
theorem cs_loop_intensity_xor (b : List Nat) :
    ∀ k i cs m, cs_loop_intensity b i k (cs ^^^ m)
      = cs_loop_intensity b i k cs ^^^ m := by
  intro k
  induction k with
  | zero => intro i cs m; rfl
  | succ k ih =>
    intro i cs m
    simp only [cs_loop_intensity]
    by_cases hc : i + 2 < b.length
    · rw [if_pos hc, if_pos hc]
      rw [show ((cs ^^^ m) ^^^ b.getD i 0) ^^^ le16 (b.getD (i+1) 0) (b.getD (i+2) 0)
          = ((cs ^^^ b.getD i 0) ^^^ le16 (b.getD (i+1) 0) (b.getD (i+2) 0)) ^^^ m from by
        simp [Nat.xor_assoc, Nat.xor_comm, nat_xor_left_comm]]
      exact ih (i+3) _ m
    · rw [if_neg hc, if_neg hc]
      exact ih (i+3) _ m

/-- The intensity loop only reads bytes `i` to `i + 3*k - 1` (besides the
length): lists agreeing there give equal results. -/
theorem cs_loop_intensity_congr (b b2 : List Nat) (hlen : b2.length = b.length) :
    ∀ k i cs, (∀ q, i ≤ q → q < i + 3*k → b2.getD q 0 = b.getD q 0) →
      cs_loop_intensity b2 i k cs = cs_loop_intensity b i k cs := by
  intro k
  induction k with
  | zero => intro i cs _; rfl
  | succ k ih =>
    intro i cs hag
    simp only [cs_loop_intensity, hlen]
    by_cases hc : i + 2 < b.length
    · rw [if_pos hc, if_pos hc]
      rw [hag i (le_refl i) (by omega), hag (i+1) (by omega) (by omega),
        hag (i+2) (by omega) (by omega)]
      exact ih (i+3) _ (fun q h1 h2 => hag q (by omega) (by omega))
    · rw [if_neg hc, if_neg hc]
      exact ih (i+3) _ (fun q h1 h2 => hag q (by omega) (by omega))

/-- Flipping the bits `m` (a sub-byte mask) of the payload byte at
position `p` XORs the intensity loop's result by `m`, shifted by 8 when
the byte is the high distance byte of its sample. -/
theorem cs_loop_intensity_flip (b b2 : List Nat) (p m : Nat)
    (hlen : b2.length = b.length)
    (hbytes : ∀ q, b.getD q 0 < 256) (hm : m < 256)
    (hset : b2.getD p 0 = b.getD p 0 ^^^ m)
    (hother : ∀ q, q ≠ p → b2.getD q 0 = b.getD q 0) :
    ∀ k i cs, i ≤ p → p < i + 3*k → i + 3*k ≤ b.length →
      cs_loop_intensity b2 i k cs
        = cs_loop_intensity b i k cs ^^^ (if (p - i) % 3 = 2 then m <<< 8 else m) := by
  intro k
  induction k with
  | zero =>
    intro i cs h1 h2 _
    exact absurd h2 (by omega)
  | succ k ih =>
    intro i cs hip hpk hbound
    simp only [cs_loop_intensity, hlen]
    have hc : i + 2 < b.length := by omega
    rw [if_pos hc, if_pos hc]
    by_cases hp3 : p < i + 3
    · have hcongr : ∀ cs2, cs_loop_intensity b2 (i+3) k cs2
          = cs_loop_intensity b (i+3) k cs2 :=
        fun cs2 => cs_loop_intensity_congr b b2 hlen k (i+3) cs2
          (fun q h1 _ => hother q (by omega))
      rcases (by omega : p = i ∨ p = i + 1 ∨ p = i + 2) with rfl | hp | hp
      · rw [if_neg (by omega)]
        rw [hset, hother (p+1) (by omega), hother (p+2) (by omega)]
        rw [show (cs ^^^ (b.getD p 0 ^^^ m)) ^^^ le16 (b.getD (p+1) 0) (b.getD (p+2) 0)
            = ((cs ^^^ b.getD p 0) ^^^ le16 (b.getD (p+1) 0) (b.getD (p+2) 0)) ^^^ m from by
          simp [Nat.xor_assoc, Nat.xor_comm, nat_xor_left_comm]]
        rw [hcongr, cs_loop_intensity_xor]
      · subst hp
        rw [if_neg (by omega)]
        rw [hset, hother i (by omega), hother (i+1+1) (by omega)]
        rw [le16_xor_lo _ _ m (hbytes (i+1)) hm]
        rw [show (cs ^^^ b.getD i 0) ^^^
              (le16 (b.getD (i+1) 0) (b.getD (i+1+1) 0) ^^^ m)
            = ((cs ^^^ b.getD i 0) ^^^ le16 (b.getD (i+1) 0) (b.getD (i+1+1) 0)) ^^^ m from by
          simp [Nat.xor_assoc, Nat.xor_comm, nat_xor_left_comm]]
        rw [hcongr, cs_loop_intensity_xor]
      · subst hp
        rw [if_pos (by omega)]
        rw [hset, hother i (by omega), hother (i+1) (by omega)]
        rw [le16_xor_hi _ _ m (hbytes (i+1))]
        rw [show (cs ^^^ b.getD i 0) ^^^
              (le16 (b.getD (i+1) 0) (b.getD (i+2) 0) ^^^ m <<< 8)
            = ((cs ^^^ b.getD i 0) ^^^ le16 (b.getD (i+1) 0) (b.getD (i+2) 0)) ^^^ m <<< 8 from by
          simp [Nat.xor_assoc, Nat.xor_comm, nat_xor_left_comm]]
        rw [hcongr, cs_loop_intensity_xor]
    · rw [hother i (by omega), hother (i+1) (by omega), hother (i+2) (by omega)]
      rw [show (p - i) % 3 = (p - (i+3)) % 3 from by omega]
      exact ih (i+3) _ (by omega) (by omega) (by omega)

/-- The no-intensity loop commutes with XOR-ing the accumulator. -/
theorem cs_loop_plain_xor (b : List Nat) :
    ∀ k i cs m, cs_loop_plain b i k (cs ^^^ m) = cs_loop_plain b i k cs ^^^ m := by
  intro k
  induction k with
  | zero => intro i cs m; rfl
  | succ k ih =>
    intro i cs m
    simp only [cs_loop_plain]
    by_cases hc : i + 1 < b.length
    · rw [if_pos hc, if_pos hc]
      rw [show (cs ^^^ m) ^^^ le16 (b.getD i 0) (b.getD (i+1) 0)
          = (cs ^^^ le16 (b.getD i 0) (b.getD (i+1) 0)) ^^^ m from by
        simp [Nat.xor_assoc, Nat.xor_comm, nat_xor_left_comm]]
      exact ih (i+2) _ m
    · rw [if_neg hc, if_neg hc]
      exact ih (i+2) _ m

/-- The no-intensity loop only reads bytes `i` to `i + 2*k - 1`. -/
theorem cs_loop_plain_congr (b b2 : List Nat) (hlen : b2.length = b.length) :
    ∀ k i cs, (∀ q, i ≤ q → q < i + 2*k → b2.getD q 0 = b.getD q 0) →
      cs_loop_plain b2 i k cs = cs_loop_plain b i k cs := by
  intro k
  induction k with
  | zero => intro i cs _; rfl
  | succ k ih =>
    intro i cs hag
    simp only [cs_loop_plain, hlen]
    by_cases hc : i + 1 < b.length
    · rw [if_pos hc, if_pos hc]
      rw [hag i (le_refl i) (by omega), hag (i+1) (by omega) (by omega)]
      exact ih (i+2) _ (fun q h1 h2 => hag q (by omega) (by omega))
    · rw [if_neg hc, if_neg hc]
      exact ih (i+2) _ (fun q h1 h2 => hag q (by omega) (by omega))

/-- Flipping the bits `m` of the payload byte at position `p` XORs the
no-intensity loop's result by `m`, shifted by 8 for a high byte. -/
theorem cs_loop_plain_flip (b b2 : List Nat) (p m : Nat)
    (hlen : b2.length = b.length)
    (hbytes : ∀ q, b.getD q 0 < 256) (hm : m < 256)
    (hset : b2.getD p 0 = b.getD p 0 ^^^ m)
    (hother : ∀ q, q ≠ p → b2.getD q 0 = b.getD q 0) :
    ∀ k i cs, i ≤ p → p < i + 2*k → i + 2*k ≤ b.length →
      cs_loop_plain b2 i k cs
        = cs_loop_plain b i k cs ^^^ (if (p - i) % 2 = 1 then m <<< 8 else m) := by
  intro k
  induction k with
  | zero =>
    intro i cs h1 h2 _
    exact absurd h2 (by omega)
  | succ k ih =>
    intro i cs hip hpk hbound
    simp only [cs_loop_plain, hlen]
    have hc : i + 1 < b.length := by omega
    rw [if_pos hc, if_pos hc]
    by_cases hp2 : p < i + 2
    · have hcongr : ∀ cs2, cs_loop_plain b2 (i+2) k cs2
          = cs_loop_plain b (i+2) k cs2 :=
        fun cs2 => cs_loop_plain_congr b b2 hlen k (i+2) cs2
          (fun q h1 _ => hother q (by omega))
      rcases (by omega : p = i ∨ p = i + 1) with rfl | hp
      · rw [if_neg (by omega)]
        rw [hset, hother (p+1) (by omega)]
        rw [le16_xor_lo _ _ m (hbytes p) hm]
        rw [show cs ^^^ (le16 (b.getD p 0) (b.getD (p+1) 0) ^^^ m)
            = (cs ^^^ le16 (b.getD p 0) (b.getD (p+1) 0)) ^^^ m from by
          simp [Nat.xor_assoc, Nat.xor_comm, nat_xor_left_comm]]
        rw [hcongr, cs_loop_plain_xor]
      · subst hp
        rw [if_pos (by omega)]
        rw [hset, hother i (by omega)]
        rw [le16_xor_hi _ _ m (hbytes i)]
        rw [show cs ^^^ (le16 (b.getD i 0) (b.getD (i+1) 0) ^^^ m <<< 8)
            = (cs ^^^ le16 (b.getD i 0) (b.getD (i+1) 0)) ^^^ m <<< 8 from by
          simp [Nat.xor_assoc, Nat.xor_comm, nat_xor_left_comm]]
        rw [hcongr, cs_loop_plain_xor]
    · rw [hother i (by omega), hother (i+1) (by omega)]
      rw [show (p - i) % 2 = (p - (i+2)) % 2 from by omega]
      exact ih (i+2) _ (by omega) (by omega) (by omega)

/-- XOR cancellation on the right. -/
theorem nat_xor_cancel_right (a n : Nat) : (a ^^^ n) ^^^ n = a := by
  rw [Nat.xor_assoc, Nat.xor_self, Nat.xor_zero]

/-- A nonzero XOR inside a chain of trailing XORs changes the result. -/
theorem xor_prefix_ne (X c d δ : Nat) (hδ : δ ≠ 0) :
    ((X ^^^ δ) ^^^ c) ^^^ d ≠ (X ^^^ c) ^^^ d := by
  intro he
  have e1 : (X ^^^ δ) ^^^ c = X ^^^ c := by
    have h2 := congrArg (fun y => y ^^^ d) he
    simpa [nat_xor_cancel_right] using h2
  have e2 : X ^^^ δ = X := by
    have h2 := congrArg (fun y => y ^^^ c) e1
    simpa [nat_xor_cancel_right] using h2
  exact xor_ne_self X δ hδ e2

/-- Flipping bits `m` (a nonzero sub-byte mask) of any payload byte of a
well-formed packet changes the value `_verify_checksum` computes, in
either intensity mode. -/
theorem compute_checksum_flip (cfg : Config) (b b2 : List Nat) (p m : Nat)
    (hlen : b2.length = b.length)
    (hwf : b.length = HEADER_SIZE + b.getD 3 0 * bytes_per_point cfg)
    (hbytes : ∀ x ∈ b, x < 256) (hm : m < 256) (hm0 : m ≠ 0)
    (hp1 : HEADER_SIZE ≤ p) (hp2 : p < b.length)
    (hset : b2.getD p 0 = b.getD p 0 ^^^ m)
    (hother : ∀ q, q ≠ p → b2.getD q 0 = b.getD q 0) :
    compute_checksum cfg b2 ≠ compute_checksum cfg b := by
  have hbytes2 : ∀ q, b.getD q 0 < 256 := getD_lt_256 b hbytes
  have hp10 : 10 ≤ p := by
    simp only [HEADER_SIZE] at hp1
    exact hp1
  have hshift : m <<< 8 ≠ 0 := by
    rw [Nat.shiftLeft_eq]
    positivity
  simp only [compute_checksum]
  rw [hother 2 (by omega), hother 3 (by omega), hother 4 (by omega),
    hother 5 (by omega), hother 6 (by omega), hother 7 (by omega)]
  rcases hint : cfg.has_intensity with _ | _
  · have hbpp : bytes_per_point cfg = 2 := by simp [bytes_per_point, hint]
    rw [hbpp] at hwf
    simp only [hint, Bool.false_eq_true, if_false]
    rw [cs_loop_plain_flip b b2 p m hlen hbytes2 hm hset hother
      (b.getD 3 0) HEADER_SIZE _ hp1
      (by simp only [HEADER_SIZE] at hwf ⊢; omega)
      (by simp only [HEADER_SIZE] at hwf ⊢; omega)]
    apply xor_prefix_ne
    split
    · exact hshift
    · exact hm0
  · have hbpp : bytes_per_point cfg = 3 := by simp [bytes_per_point, hint]
    rw [hbpp] at hwf
    simp only [hint, if_true]
    rw [cs_loop_intensity_flip b b2 p m hlen hbytes2 hm hset hother
      (b.getD 3 0) HEADER_SIZE _ hp1
      (by simp only [HEADER_SIZE] at hwf ⊢; omega)
      (by simp only [HEADER_SIZE] at hwf ⊢; omega)]
    apply xor_prefix_ne
    split
    · exact hshift
    · exact hm0

/-! ### Checksum: spec-side per-sample formulation -/

/-- The packet wire layout (section 6 of the protocol): sync bytes
`0xAA, 0x55`, packet type, sample count, start angle, end angle and
checksum bytes (little endian), then the payload. -/
def mk_packet (ct lsn fl fh ll lh cl ch : Nat) (payload : List Nat) : List Nat :=
  0xAA :: 0x55 :: ct :: lsn :: fl :: fh :: ll :: lh :: cl :: ch :: payload

/-- Payload bytes of intensity-mode samples `(b0, b1, b2)`. -/
def flat_intensity (samples : List (Nat × Nat × Nat)) : List Nat :=
  (samples.map fun s => [s.1, s.2.1, s.2.2]).flatten

/-- Payload bytes of no-intensity samples `(b0, b1)`. -/
def flat_plain (samples : List (Nat × Nat)) : List Nat :=
  (samples.map fun s => [s.1, s.2]).flatten

/-- The checksum as the claim words it for intensity mode: seed
`0x55AA`, XOR the start-angle word, per sample XOR the intensity byte
then the little-endian distance word, finally XOR the combined
(packet-type, sample-count) word and the end-angle word. -/
def spec_checksum_intensity (ct lsn fsa lsa : Nat)
    (samples : List (Nat × Nat × Nat)) : Nat :=
  ((samples.foldl (fun cs s => (cs ^^^ s.1) ^^^ le16 s.2.1 s.2.2) (0x55AA ^^^ fsa))
      ^^^ le16 ct lsn) ^^^ lsa

/-- The checksum as the claim words it for no-intensity mode: per sample
XOR the raw 16-bit sample word. -/
def spec_checksum_plain (ct lsn fsa lsa : Nat)
    (samples : List (Nat × Nat)) : Nat :=
  ((samples.foldl (fun cs s => cs ^^^ le16 s.1 s.2) (0x55AA ^^^ fsa))
      ^^^ le16 ct lsn) ^^^ lsa

/-- The byte-indexed intensity loop over a packet whose payload is the
flattening of three-byte samples equals the per-sample fold. -/
theorem cs_loop_intensity_eq_foldl :
    ∀ (samples : List (Nat × Nat × Nat)) (pre : List Nat) (cs : Nat),
      cs_loop_intensity (pre ++ flat_intensity samples) pre.length samples.length cs
        = samples.foldl (fun c s => (c ^^^ s.1) ^^^ le16 s.2.1 s.2.2) cs := by
  intro samples
  induction samples with
  | nil => intro pre cs; rfl
  | cons s rest ih =>
    intro pre cs
    have hflat : flat_intensity (s :: rest)
        = s.1 :: s.2.1 :: s.2.2 :: flat_intensity rest := by
      simp [flat_intensity]
    rw [hflat]
    simp only [cs_loop_intensity, List.length_cons]
    have hg : pre.length + 2
        < (pre ++ s.1 :: s.2.1 :: s.2.2 :: flat_intensity rest).length := by
      rw [List.length_append]
      simp only [List.length_cons]
      omega
    rw [if_pos hg]
    have g0 : (pre ++ s.1 :: s.2.1 :: s.2.2 :: flat_intensity rest).getD
        pre.length 0 = s.1 := by
      rw [List.getD_append_right _ _ _ _ (le_refl _), Nat.sub_self]
      rfl
    have g1 : (pre ++ s.1 :: s.2.1 :: s.2.2 :: flat_intensity rest).getD
        (pre.length + 1) 0 = s.2.1 := by
      rw [List.getD_append_right _ _ _ _ (by omega)]
      rw [show pre.length + 1 - pre.length = 1 from by omega]
      rfl
    have g2 : (pre ++ s.1 :: s.2.1 :: s.2.2 :: flat_intensity rest).getD
        (pre.length + 2) 0 = s.2.2 := by
      rw [List.getD_append_right _ _ _ _ (by omega)]
      rw [show pre.length + 2 - pre.length = 2 from by omega]
      rfl
    rw [g0, g1, g2]
    have hassoc : pre ++ s.1 :: s.2.1 :: s.2.2 :: flat_intensity rest
        = (pre ++ [s.1, s.2.1, s.2.2]) ++ flat_intensity rest := by
      simp
    rw [hassoc]
    rw [show pre.length + 3 = (pre ++ [s.1, s.2.1, s.2.2]).length from by simp]
    rw [ih (pre ++ [s.1, s.2.1, s.2.2]) _]
    rw [List.foldl_cons]

/-- The byte-indexed no-intensity loop over a packet whose payload is
the flattening of two-byte samples equals the per-sample fold. -/
theorem cs_loop_plain_eq_foldl :
    ∀ (samples : List (Nat × Nat)) (pre : List Nat) (cs : Nat),
      cs_loop_plain (pre ++ flat_plain samples) pre.length samples.length cs
        = samples.foldl (fun c s => c ^^^ le16 s.1 s.2) cs := by
  intro samples
  induction samples with
  | nil => intro pre cs; rfl
  | cons s rest ih =>
    intro pre cs
    have hflat : flat_plain (s :: rest) = s.1 :: s.2 :: flat_plain rest := by
      simp [flat_plain]
    rw [hflat]
    simp only [cs_loop_plain, List.length_cons]
    have hg : pre.length + 1 < (pre ++ s.1 :: s.2 :: flat_plain rest).length := by
      rw [List.length_append]
      simp only [List.length_cons]
      omega
    rw [if_pos hg]
    have g0 : (pre ++ s.1 :: s.2 :: flat_plain rest).getD pre.length 0 = s.1 := by
      rw [List.getD_append_right _ _ _ _ (le_refl _), Nat.sub_self]
      rfl
    have g1 : (pre ++ s.1 :: s.2 :: flat_plain rest).getD (pre.length + 1) 0 = s.2 := by
      rw [List.getD_append_right _ _ _ _ (by omega)]
      rw [show pre.length + 1 - pre.length = 1 from by omega]
      rfl
    rw [g0, g1]
    have hassoc : pre ++ s.1 :: s.2 :: flat_plain rest
        = (pre ++ [s.1, s.2]) ++ flat_plain rest := by
      simp
    rw [hassoc]
    rw [show pre.length + 2 = (pre ++ [s.1, s.2]).length from by simp]
    rw [ih (pre ++ [s.1, s.2]) _]
    rw [List.foldl_cons]

/-- On an assembled intensity-mode packet, `_verify_checksum` computes
exactly the spec's per-sample value. -/
theorem compute_eq_spec_intensity (bit ct lsn fl fh ll lh cl ch : Nat)
    (samples : List (Nat × Nat × Nat)) (hlsn : lsn = samples.length) :
    compute_checksum ⟨true, bit⟩
        (mk_packet ct lsn fl fh ll lh cl ch (flat_intensity samples))
      = spec_checksum_intensity ct lsn (le16 fl fh) (le16 ll lh) samples := by
  simp only [compute_checksum, mk_packet]
  simp only [List.getD_cons_succ, List.getD_cons_zero, if_pos rfl]
  rw [show (0xAA : Nat) :: 0x55 :: ct :: lsn :: fl :: fh :: ll :: lh :: cl :: ch ::
      flat_intensity samples
      = [0xAA, 0x55, ct, lsn, fl, fh, ll, lh, cl, ch] ++ flat_intensity samples from rfl]
  rw [show HEADER_SIZE
      = ([0xAA, 0x55, ct, lsn, fl, fh, ll, lh, cl, ch] : List Nat).length from by
    simp [HEADER_SIZE]]
  rw [hlsn]
  rw [cs_loop_intensity_eq_foldl samples _ _]
  rfl

/-- On an assembled no-intensity packet, `_verify_checksum` computes
exactly the spec's per-sample value. -/
theorem compute_eq_spec_plain (bit ct lsn fl fh ll lh cl ch : Nat)
    (samples : List (Nat × Nat)) (hlsn : lsn = samples.length) :
    compute_checksum ⟨false, bit⟩
        (mk_packet ct lsn fl fh ll lh cl ch (flat_plain samples))
      = spec_checksum_plain ct lsn (le16 fl fh) (le16 ll lh) samples := by
  simp only [compute_checksum, mk_packet]
  simp only [List.getD_cons_succ, List.getD_cons_zero]
  rw [if_neg (by simp)]
  rw [show (0xAA : Nat) :: 0x55 :: ct :: lsn :: fl :: fh :: ll :: lh :: cl :: ch ::
      flat_plain samples
      = [0xAA, 0x55, ct, lsn, fl, fh, ll, lh, cl, ch] ++ flat_plain samples from rfl]
  rw [show HEADER_SIZE
      = ([0xAA, 0x55, ct, lsn, fl, fh, ll, lh, cl, ch] : List Nat).length from by
    simp [HEADER_SIZE]]
  rw [hlsn]
  rw [cs_loop_plain_eq_foldl samples _ _]
  rfl

/-- C4: the checksum check accepts a packet iff the seeded per-sample
XOR value (0x55AA, start-angle word, per sample the intensity byte and
distance word — or the raw sample word in no-intensity mode — then the
(type, count) word and end-angle word) equals the transmitted checksum;
a correctly computed checksum is accepted, and flipping any single
payload bit of an otherwise-valid packet is rejected. -/
theorem checksum_accepts_iff_and_bit_flip :
    (∀ cfg packet_data,
        verify_checksum cfg packet_data (compute_checksum cfg packet_data) = true)
    ∧ (∀ bit ct lsn fl fh ll lh cl ch samples, lsn = List.length samples → ∀ cs,
        verify_checksum ⟨true, bit⟩
            (mk_packet ct lsn fl fh ll lh cl ch (flat_intensity samples)) cs = true
          ↔ spec_checksum_intensity ct lsn (le16 fl fh) (le16 ll lh) samples = cs)
    ∧ (∀ bit ct lsn fl fh ll lh cl ch samples, lsn = List.length samples → ∀ cs,
        verify_checksum ⟨false, bit⟩
            (mk_packet ct lsn fl fh ll lh cl ch (flat_plain samples)) cs = true
          ↔ spec_checksum_plain ct lsn (le16 fl fh) (le16 ll lh) samples = cs)
    ∧ (∀ cfg (b b2 : List Nat) (p j cs : Nat),
        b.length = HEADER_SIZE + b.getD 3 0 * bytes_per_point cfg →
        (∀ x ∈ b, x < 256) → j < 8 →
        HEADER_SIZE ≤ p → p < b.length →
        b2.length = b.length →
        b2.getD p 0 = b.getD p 0 ^^^ 2 ^ j →
        (∀ q, q ≠ p → b2.getD q 0 = b.getD q 0) →
        verify_checksum cfg b cs = true →
        verify_checksum cfg b2 cs = false) := by
  refine ⟨?_, ?_, ?_, ?_⟩
  · intro cfg packet_data
    rw [verify_checksum]
    exact beq_self_eq_true _
  · intro bit ct lsn fl fh ll lh cl ch samples hlsn cs
    rw [verify_checksum, beq_iff_eq,
      compute_eq_spec_intensity bit ct lsn fl fh ll lh cl ch samples hlsn]
  · intro bit ct lsn fl fh ll lh cl ch samples hlsn cs
    rw [verify_checksum, beq_iff_eq,
      compute_eq_spec_plain bit ct lsn fl fh ll lh cl ch samples hlsn]
  · intro cfg b b2 p j cs hwf hbytes hj hp1 hp2 hlen hset hother haccept
    have hm : (2 ^ j : Nat) < 256 := by
      calc (2 ^ j : Nat) < 2 ^ 8 := Nat.pow_lt_pow_right (by norm_num) hj
      _ = 256 := by norm_num
    have hm0 : (2 ^ j : Nat) ≠ 0 := by positivity
    have hne := compute_checksum_flip cfg b b2 p (2 ^ j) hlen hwf hbytes hm hm0
      hp1 hp2 hset hother
    rw [verify_checksum, beq_iff_eq] at haccept
    rw [verify_checksum, beq_eq_false_iff_ne]
    rw [← haccept]
    exact hne

/-- `getD` reads away from the set position are unchanged. -/
theorem list_getD_set_ne (l : List Nat) (i a q : Nat) (h : q ≠ i) :
    (l.set i a).getD q 0 = l.getD q 0 := by
  rw [List.getD_eq_getD_get?, List.getD_eq_getD_get?,
    List.get?_set_ne a l (Ne.symm h)]

/-- Witness for C4: a concrete valid one-sample intensity packet is
accepted with its computed checksum, satisfies both per-sample
characterisations, and is rejected after flipping bit 0 of payload
byte 10. -/
theorem checksum_accepts_iff_and_bit_flip_witness :
    (verify_checksum ⟨true, 8⟩
        [0xAA, 0x55, 1, 1, 1, 0, 1, 0, 0xAB, 0x54, 0, 0, 0]
        (compute_checksum ⟨true, 8⟩
          [0xAA, 0x55, 1, 1, 1, 0, 1, 0, 0xAB, 0x54, 0, 0, 0]) = true)
    ∧ (verify_checksum ⟨true, 8⟩
          (mk_packet 1 1 1 0 1 0 0xAB 0x54 (flat_intensity [(0, 0, 0)])) 0x54AB = true
        ↔ spec_checksum_intensity 1 1 (le16 1 0) (le16 1 0) [(0, 0, 0)] = 0x54AB)
    ∧ (verify_checksum ⟨false, 8⟩
          (mk_packet 1 1 1 0 1 0 0xAB 0x54 (flat_plain [(0, 0)])) 0x54AB = true
        ↔ spec_checksum_plain 1 1 (le16 1 0) (le16 1 0) [(0, 0)] = 0x54AB)
    ∧ verify_checksum ⟨true, 8⟩
        (([0xAA, 0x55, 1, 1, 1, 0, 1, 0, 0xAB, 0x54, 0, 0, 0] : List Nat).set 10 1)
        0x54AB = false := by
  refine ⟨checksum_accepts_iff_and_bit_flip.1 ⟨true, 8⟩ _,
    checksum_accepts_iff_and_bit_flip.2.1 8 1 1 1 0 1 0 0xAB 0x54 [(0, 0, 0)] rfl 0x54AB,
    checksum_accepts_iff_and_bit_flip.2.2.1 8 1 1 1 0 1 0 0xAB 0x54 [(0, 0)] rfl 0x54AB,
    checksum_accepts_iff_and_bit_flip.2.2.2 ⟨true, 8⟩
      [0xAA, 0x55, 1, 1, 1, 0, 1, 0, 0xAB, 0x54, 0, 0, 0]
      (([0xAA, 0x55, 1, 1, 1, 0, 1, 0, 0xAB, 0x54, 0, 0, 0] : List Nat).set 10 1)
      10 0 0x54AB (by decide) (by decide) (by decide) (by decide) (by decide)
      (by decide) (by decide)
      (fun q hq => list_getD_set_ne _ 10 1 q hq) (by decide)⟩

end YDLidar
